import Mathlib

/-!
Verification of the gnumeric-py core: the formula evaluator (values, the
cross-type comparison order, viral error propagation, circular-reference
handling) and the sparse cell grid layer (`gnumeric/sheet.py`: bounds
checks, cell lookup and creation, range collection with materialization,
bounding-rectangle computation, sorting).

The grid layer is a direct shallow embedding of `gnumeric/sheet.py`:
each Lean definition mirrors the corresponding Python method, with the
lxml element list embedded as a `List CellElem` and Python `IndexError`
and `UnsupportedOperationException` embedded as an explicit error type.
State mutation is embedded as explicit state passing: each operation
returns its result together with the updated sheet, and an operation
that raises returns the error together with the sheet as mutated up to
the point of the raise (mirroring the Python object surviving the
exception).

The evaluator (`expression_evaluation.py`) is not part of the sources
available here, only its test suite is; its definitions below are
modelled from the specification text and are marked as such.  Numbers
are modelled as rationals (the float domain of the implementation
restricted to exactly representable values; the claims under study only
exercise such values), and text ordering is modelled on the character
lists underlying the strings, with ASCII case folding.
-/

namespace Gnumeric

/-! ## Part 1: the expression evaluator, modelled from the spec -/

/-- Modelled from the spec: the closed set of spreadsheet error codes
(`evaluation_errors.py`, absent from the sources; the ellipsis of the
spec closed to the six codes it names). -/
inductive EvalError where
  | DIV0
  | VALUE
  | REF
  | NAME
  | NUM
  | NA
deriving DecidableEq

/-- Modelled from the spec: the tagged union of spreadsheet values,
`Number(float) | Text(string) | Boolean(bool) | ErrorCode`.  Numbers
are embedded as rationals. -/
inductive Value where
  | num (q : ℚ)
  | text (s : String)
  | bool (b : Bool)
  | err (e : EvalError)
deriving DecidableEq

/-- True exactly on the error values. -/
def Value.isError : Value → Bool
  | .err _ => true
  | _ => false

/-- ASCII case folding of one character, as Python lower() acts on the
ASCII range (the only range the sources exercise). -/
def lowerChar (c : Char) : Char :=
  if 'A' ≤ c ∧ c ≤ 'Z' then Char.ofNat (c.toNat + 32) else c

/-- The case-folded character list of a string. -/
def foldText (s : String) : List Char := s.data.map lowerChar

/-- Three-way lexicographic comparison of character lists. -/
def cmpChars : List Char → List Char → Ordering
  | [], [] => .eq
  | [], _ :: _ => .lt
  | _ :: _, [] => .gt
  | a :: as, b :: bs =>
    if a < b then .lt else if b < a then .gt else cmpChars as bs

/-- Three-way comparison of rationals. -/
def cmpQ (a b : ℚ) : Ordering :=
  if a < b then .lt else if b < a then .gt else .eq

/-- Three-way comparison of booleans, false below true. -/
def cmpBool : Bool → Bool → Ordering
  | false, true => .lt
  | true, false => .gt
  | _, _ => .eq

/-- Rank of a value type in the cross-type order: Number below Text
below Boolean. -/
def typeRank : Value → ℕ
  | .num _ => 0
  | .text _ => 1
  | .bool _ => 2
  | .err _ => 3

/-- Modelled from the spec: the total comparison order used by the
comparison operators — across types, Number below Text below Boolean;
within a type, numbers numerically, text case-insensitively and
lexicographically, booleans with false below true. -/
def cmpValue : Value → Value → Ordering
  | .num a, .num b => cmpQ a b
  | .text a, .text b => cmpChars (foldText a) (foldText b)
  | .bool a, .bool b => cmpBool a b
  | a, b => compare (typeRank a) (typeRank b)

/-- The six comparison operators. -/
inductive CmpOp where
  | eq
  | ne
  | lt
  | le
  | gt
  | ge
deriving DecidableEq

/-- The four arithmetic operators of the model (exponentiation is left
out: its float overflow behavior is outside the embedded domain). -/
inductive ArithOp where
  | add
  | sub
  | mul
  | div
deriving DecidableEq

/-- Binary operators: arithmetic, comparison, text concatenation. -/
inductive BinOp where
  | arith (op : ArithOp)
  | cmp (op : CmpOp)
  | concat
deriving DecidableEq

/-- Truth value of a comparison operator on a three-way comparison
outcome. -/
def applyCmp (op : CmpOp) (o : Ordering) : Bool :=
  match op with
  | .eq => o == .eq
  | .ne => o != .eq
  | .lt => o == .lt
  | .le => o != .gt
  | .gt => o == .gt
  | .ge => o != .lt

/-- Modelled from the spec: numeric coercion — numbers unchanged, true
is 1 and false is 0, text is not coercible. -/
def toNumber : Value → Option ℚ
  | .num q => some q
  | .bool b => some (if b then 1 else 0)
  | .text _ => none
  | .err _ => none

/-- Modelled from the spec: canonical display text for concatenation;
numbers in literal form, booleans as TRUE and FALSE.  (The error case is
unreachable: errors propagate before concatenation applies.) -/
def displayText : Value → String
  | .num q => toString q
  | .text s => s
  | .bool b => if b then "TRUE" else "FALSE"
  | .err _ => ""

/-- Arithmetic on coerced numbers; division by zero gives DIV0. -/
def applyArith (op : ArithOp) (a b : ℚ) : Value :=
  match op with
  | .add => .num (a + b)
  | .sub => .num (a - b)
  | .mul => .num (a * b)
  | .div => if b = 0 then .err .DIV0 else .num (a / b)

/-- Modelled from the spec: a binary operator applied to two non-error
operand values. -/
def applyBinOp (op : BinOp) (v w : Value) : Value :=
  match op with
  | .arith o =>
    match toNumber v with
    | none => .err .VALUE
    | some a =>
      match toNumber w with
      | none => .err .VALUE
      | some b => applyArith o a b
  | .cmp o => .bool (applyCmp o (cmpValue v w))
  | .concat => .text (displayText v ++ displayText w)

/-- A cell address, (row, column), sheet qualification left implicit
(the claims under study stay on one sheet). -/
abbrev Addr := Int × Int

/-- Modelled from the spec: the transient expression tree (the range,
unary and cross-sheet forms are left out; the claims under study do not
exercise them). -/
inductive Expr where
  | lit (v : Value)
  | ref (a : Addr)
  | binop (op : BinOp) (l r : Expr)
  | call (fname : String) (args : List Expr)

/-- Modelled from the spec: the content a grid cell exposes to the
evaluator — a literal value or a parsed formula (the parser, absent
from the sources, is bypassed: cells hold parsed content). -/
inductive CellContent where
  | val (v : Value)
  | formula (e : Expr)

/-- Modelled from the spec: the grid as the evaluator consumes it — a
partial map from address to cell content; an absent cell dereferences
to Number 0 without being created. -/
abbrev Grid := Addr → Option CellContent

/-- Modelled from the spec: the function registry, with the two scalar
functions the sources exercise (ABS, LEN); names resolve
case-insensitively, unknown names give NAME, a missing required
argument gives NA, a non-coercible argument gives VALUE. -/
def applyFunc (fname : String) (args : List Value) : Value :=
  if foldText fname = "abs".data then
    match args with
    | [] => .err .NA
    | v :: _ =>
      match toNumber v with
      | none => .err .VALUE
      | some q => .num |q|
  else if foldText fname = "len".data then
    match args with
    | [] => .err .NA
    | v :: _ => .num ((displayText v).length : ℚ)
  else .err .NAME

/-- One step of left-to-right argument evaluation: an error or fuel
exhaustion already recorded in the accumulator is kept, otherwise the
next argument is evaluated, the first error winning. -/
def argStep (ev : Expr → Option Value)
    (acc : Option (Except EvalError (List Value))) (e : Expr) :
    Option (Except EvalError (List Value)) :=
  match acc with
  | some (Except.ok vs) =>
    match ev e with
    | none => none
    | some (.err er) => some (Except.error er)
    | some v => some (Except.ok (vs ++ [v]))
  | other => other

/-- Modelled from the spec: the recursive tree-walk evaluator.  The
`path` argument is the explicit list of cells whose references are
currently being resolved; a reference to a cell already on it
short-circuits to Number 0.  The fuel argument bounds recursion depth;
its exhaustion (`none`) stands for the host-level stack-exhaustion
failure, never for a spreadsheet value. -/
def evalExpr (g : Grid) : ℕ → List Addr → Expr → Option Value
  | 0, _, _ => none
  | Nat.succ fuel, path, e =>
    match e with
    | .lit v => some v
    | .ref a =>
      if a ∈ path then some (.num 0)
      else
        match g a with
        | none => some (.num 0)
        | some (.val v) => some v
        | some (.formula e2) => evalExpr g fuel (a :: path) e2
    | .binop op l r =>
      match evalExpr g fuel path l with
      | none => none
      | some (.err er) => some (.err er)
      | some v =>
        match evalExpr g fuel path r with
        | none => none
        | some (.err er) => some (.err er)
        | some w => some (applyBinOp op v w)
    | .call fname args =>
      match args.foldl (argStep (evalExpr g fuel path)) (some (Except.ok [])) with
      | none => none
      | some (Except.error er) => some (.err er)
      | some (Except.ok vs) => some (applyFunc fname vs)

/-- Modelled from the spec: evaluating a cell of the grid, as the tests
drive it through `evaluate(cell.text, cell)` — the cell content is
evaluated with an initially empty resolution path; a literal evaluates
to itself and an absent cell to Number 0. -/
def evaluateCell (g : Grid) (a : Addr) (fuel : ℕ) : Option Value :=
  match g a with
  | none => some (.num 0)
  | some (.val v) => some v
  | some (.formula e) => evalExpr g fuel [] e

/-- The claim C1 grid shape: cell A1 (address (0,0)) holds the formula
referencing B1 (address (0,1)) and B1 holds the formula referencing
A1. -/
def CycleGrid (g : Grid) : Prop :=
  g (0, 0) = some (.formula (.ref (0, 1))) ∧
  g (0, 1) = some (.formula (.ref (0, 0)))

/-- A concrete two-cell cyclic grid. -/
def cycleGridW : Grid := fun a =>
  if a = (0, 0) then some (.formula (.ref (0, 1)))
  else if a = (0, 1) then some (.formula (.ref (0, 0))) else none

/-- The claim C2 grid shape: the state after A1, formerly the literal
5, is overwritten with the formula =B1+5, while B1 holds =A1. -/
def SnapshotGrid (g : Grid) : Prop :=
  g (0, 0) = some (.formula (.binop (.arith .add) (.ref (0, 1)) (.lit (.num 5)))) ∧
  g (0, 1) = some (.formula (.ref (0, 0)))

/-- The concrete snapshot grid. -/
def snapshotGridW : Grid := fun a =>
  if a = (0, 0) then
    some (.formula (.binop (.arith .add) (.ref (0, 1)) (.lit (.num 5))))
  else if a = (0, 1) then some (.formula (.ref (0, 0))) else none

/-- The empty grid. -/
def emptyGridW : Grid := fun _ => none

/-! ## Part 2: the sparse cell grid, embedded from gnumeric/sheet.py -/

/-- The value type code of an empty cell (`cell.VALUE_TYPE_EMPTY`; only
its distinctness from the other codes matters here). -/
def VALUE_TYPE_EMPTY : Int := 10

/-- One `gnm:Cell` element: the Row and Col attributes, the optional
ValueType attribute, the optional ExprID attribute and the optional
text content. -/
structure CellElem where
  row : Int
  col : Int
  valueType : Option Int
  exprId : Option String
  text : Option String
deriving DecidableEq

/-- The address attributes of a cell element as a pair. -/
def addrOf (c : CellElem) : Int × Int := (c.row, c.col)

/-- The XPath empty-cell selector (`__EMPTY_CELL_XPATH_SELECTOR`): a
ValueType equal to the empty code, or no ValueType, no ExprID and
zero-length text. -/
def CellElem.isEmptyCell (c : CellElem) : Bool :=
  c.valueType == some VALUE_TYPE_EMPTY ||
  (c.valueType == none && c.exprId == none && (c.text.getD "").length == 0)

/-- `SHEET_TYPE_OBJECT`. -/
def SHEET_TYPE_OBJECT : String := "object"

/-- A worksheet: the SheetType attribute of the sheet name element
(none on a regular sheet), the gnm:Rows and gnm:Cols attributes, and
the list of cell elements under gnm:Cells in document order. -/
structure Sheet where
  sheetType : Option String
  rowsAttr : Int
  colsAttr : Int
  cells : List CellElem
deriving DecidableEq

/-- The failures the Sheet operations raise: the IndexError raise
sites, split by which bound or lookup failed, and
UnsupportedOperationException. -/
inductive SheetError where
  | rowOutOfBounds (row maxRow : Int)
  | colOutOfBounds (col maxCol : Int)
  | noCellAt (row col : Int)
  | unsupportedOp (msg : String)
deriving DecidableEq

/-- `max_allowed_row`: the Rows attribute minus one. -/
def Sheet.max_allowed_row (s : Sheet) : Int := s.rowsAttr - 1

/-- `max_allowed_column`: the Cols attribute minus one. -/
def Sheet.max_allowed_column (s : Sheet) : Int := s.colsAttr - 1

/-- `is_valid_row`. -/
def Sheet.is_valid_row (s : Sheet) (row : Int) : Bool :=
  0 ≤ row && row ≤ s.max_allowed_row

/-- `is_valid_column`. -/
def Sheet.is_valid_column (s : Sheet) (col : Int) : Bool :=
  0 ≤ col && col ≤ s.max_allowed_column

/-- `__get_cell_element`: the first stored element with the given Row
and Col attributes. -/
def Sheet.get_cell_element (s : Sheet) (row col : Int) : Option CellElem :=
  s.cells.find? (fun c => c.row == row && c.col == col)

/-- The element `__create_and_get_new_cell` builds: an empty-typed cell
at the given coordinates. -/
def newCellElem (row col : Int) : CellElem :=
  { row := row, col := col, valueType := some VALUE_TYPE_EMPTY,
    exprId := none, text := none }

/-- `__create_and_get_new_cell`: append a fresh empty element to the
cell list and return it. -/
def Sheet.create_and_get_new_cell (s : Sheet) (row col : Int) :
    CellElem × Sheet :=
  (newCellElem row col, { s with cells := s.cells ++ [newCellElem row col] })

/-- `Sheet.cell`: bounds checks in source order, then lookup, then
creation (when `create`) or the not-found raise. -/
def Sheet.cell (s : Sheet) (row col : Int) (create : Bool) :
    Except SheetError CellElem × Sheet :=
  if ¬ s.is_valid_row row then
    (.error (.rowOutOfBounds row s.max_allowed_row), s)
  else if ¬ s.is_valid_column col then
    (.error (.colOutOfBounds col s.max_allowed_column), s)
  else
    match s.get_cell_element row col with
    | some c => (.ok c, s)
    | none =>
      if create then
        let p := s.create_and_get_new_cell row col
        (.ok p.1, p.2)
      else (.error (.noCellAt row col), s)

/-- `__get_non_empty_cells`. -/
def Sheet.content_cells (s : Sheet) : List CellElem :=
  s.cells.filter (fun c => ¬ c.isEmptyCell)

/-- Python max or min over a non-empty sequence, as a head-seeded fold
(the empty arm is unreachable behind the emptiness guards). -/
def foldExtreme (mm : Int → Int → Int) : List Int → Int
  | [] => -1
  | x :: xs => xs.foldl mm x

/-- `__maxmin_rc`: max or min of a coordinate attribute over the
non-empty cells; -1 when there are none; raises on a chartsheet with
the axis name in the message. -/
def Sheet.maxmin_rc (s : Sheet) (rc : String) (attr : CellElem → Int)
    (mm : Int → Int → Int) : Except SheetError Int :=
  if s.sheetType == some SHEET_TYPE_OBJECT then
    .error (.unsupportedOp ("Chartsheet does not have " ++ rc))
  else
    let content := s.content_cells
    if content.length == 0 then .ok (-1)
    else .ok (foldExtreme mm (content.map attr))

/-- `max_column`. -/
def Sheet.max_column (s : Sheet) : Except SheetError Int :=
  s.maxmin_rc "column" (fun c => c.col) max

/-- `max_row`. -/
def Sheet.max_row (s : Sheet) : Except SheetError Int :=
  s.maxmin_rc "row" (fun c => c.row) max

/-- `min_column`. -/
def Sheet.min_column (s : Sheet) : Except SheetError Int :=
  s.maxmin_rc "column" (fun c => c.col) min

/-- `min_row`. -/
def Sheet.min_row (s : Sheet) : Except SheetError Int :=
  s.maxmin_rc "row" (fun c => c.row) min

/-- `calculate_dimension`: the chartsheet raise, then the four
attribute extremes as a tuple (min_row, min_column, max_row,
max_column). -/
def Sheet.calculate_dimension (s : Sheet) :
    Except SheetError (Int × Int × Int × Int) :=
  if s.sheetType == some SHEET_TYPE_OBJECT then
    .error (.unsupportedOp "Chartsheet does not have rows or columns")
  else
    match s.min_row, s.min_column, s.max_row, s.max_column with
    | .ok a, .ok b, .ok c, .ok d => .ok (a, b, c, d)
    | .error e, _, _, _ => .error e
    | _, .error e, _, _ => .error e
    | _, _, .error e, _ => .error e
    | _, _, _, .error e => .error e

/-- `__maxmin_rc_in_cr`: max or min of one coordinate attribute over
the non-empty cells whose other coordinate attribute equals `idx`;
raises on a chartsheet with the searched axis name in the message. -/
def Sheet.maxmin_rc_in_cr (s : Sheet) (rc : String)
    (crAttr rcAttr : CellElem → Int)
    (mm : Int → Int → Int) (idx : Int) : Except SheetError Int :=
  if s.sheetType == some SHEET_TYPE_OBJECT then
    .error (.unsupportedOp ("Chartsheet does not have " ++ rc))
  else
    let content :=
      (s.content_cells.filter (fun c => crAttr c == idx)).map rcAttr
    if content.length == 0 then .ok (-1)
    else .ok (foldExtreme mm content)

/-- The sort-key order of `__sort_cells`: row-major (row, column) when
`row_major` holds, column-major (column, row) otherwise. -/
def keyLe (row_major : Bool) (a b : CellElem) : Prop :=
  if row_major then
    a.row < b.row ∨ (a.row = b.row ∧ a.col ≤ b.col)
  else
    a.col < b.col ∨ (a.col = b.col ∧ a.row ≤ b.row)

instance (rm : Bool) : DecidableRel (keyLe rm) := fun a b => by
  unfold keyLe
  by_cases h : rm = true
  · rw [if_pos h]
    infer_instance
  · rw [if_neg h]
    infer_instance

/-- `__sort_cells`: Python sorted is a stable sort by the tuple key,
embedded as a stable insertion sort under the key order. -/
def Sheet.sort_cells (cells : List CellElem) (row_major : Bool) :
    List CellElem :=
  List.insertionSort (keyLe row_major) cells

/-- The Python `sort` argument of `get_cell_collection`,
`Union[bool, str]`. -/
inductive SortArg where
  | ofBool (b : Bool)
  | ofStr (s : String)
deriving DecidableEq

/-- Python truthiness of the sort argument (`if sort:`). -/
def SortArg.truthy : SortArg → Bool
  | .ofBool b => b
  | .ofStr s => !(s == "")

/-- Python equality `sort == "row"` (a boolean never equals the
string). -/
def SortArg.isRowStr : SortArg → Bool
  | .ofStr s => s == "row"
  | .ofBool _ => false

/-- The integer list from `a` to `b` inclusive (Python
`range(a, b + 1)`). -/
def intRange (a b : Int) : List Int :=
  (List.range (b + 1 - a).toNat).map (fun (i : ℕ) => a + (i : Int))

/-- The row-major product of the row and column ranges (Python
`product(range(start_row, end_row + 1), range(start_column,
end_column + 1))`). -/
def rectAddrs (sr er sc ec : Int) : List (Int × Int) :=
  (intRange sr er).flatMap (fun r => (intRange sc ec).map (fun c => (r, c)))

/-- The `create_cells` loop of `get_cell_collection`: walk the product
list and, for each address not among the already-collected ones, fetch
(and thereby create) the cell through `Sheet.cell`, appending it to the
result; an IndexError propagates with the sheet as mutated so far. -/
def Sheet.createLoop (s : Sheet) (already : List (Int × Int)) :
    List (Int × Int) → List CellElem →
    Except SheetError (List CellElem) × Sheet
  | [], acc => (.ok acc, s)
  | (r, c) :: rest, acc =>
    if (r, c) ∈ already then s.createLoop already rest acc
    else
      match s.cell r c true with
      | (.ok ce, s2) => s2.createLoop already rest (acc ++ [ce])
      | (.error e, s2) => (.error e, s2)

/-- The body of `get_cell_collection` up to (not including) the final
sort: the selection of stored cells, the defaulting of `start` and
`end`, the rectangle filter and the `create_cells` loop.  `start` and
`end` are already normalized to coordinate pairs (the string and Cell
argument forms of the Python method are coordinate conversions
performed before the logic embedded here). -/
def Sheet.gcc_unsorted (s : Sheet) (start? end? : Option (Int × Int))
    (include_empty : Bool) (create_cells : Bool) :
    Except SheetError (List CellElem) × Sheet :=
  let base := if include_empty then s.cells else s.content_cells
  let st := start?.getD (0, 0)
  let en := end?.getD (s.max_allowed_row, s.max_allowed_column)
  let cells := base.filter (fun c =>
    st.2 ≤ c.col && c.col ≤ en.2 && st.1 ≤ c.row && c.row ≤ en.1)
  if create_cells then
    s.createLoop (cells.map addrOf) (rectAddrs st.1 en.1 st.2 en.2) cells
  else (.ok cells, s)

/-- `get_cell_collection`: the unsorted body followed by the `sort`
dispatch (`if sort: ... sort == "row"`). -/
def Sheet.get_cell_collection (s : Sheet)
    (start? end? : Option (Int × Int)) (include_empty : Bool)
    (create_cells : Bool) (sort : SortArg) :
    Except SheetError (List CellElem) × Sheet :=
  match s.gcc_unsorted start? end? include_empty create_cells with
  | (.ok cs, s2) =>
    if sort.truthy then (.ok (Sheet.sort_cells cs sort.isRowStr), s2)
    else (.ok cs, s2)
  | other => other

/-- The `create_cells` generator of `__get_rc`, fully drained: for each
index in the range, the mapped existing cell if present, else a
`Sheet.cell` fetch with `(i, idx)` as the positional (row, column)
arguments exactly as in the source. -/
def Sheet.getRcLoop (s : Sheet) (cellMap : Int → Option CellElem)
    (idx : Int) : List Int → List CellElem →
    Except SheetError (List CellElem) × Sheet
  | [], acc => (.ok acc, s)
  | i :: rest, acc =>
    match cellMap i with
    | some c => s.getRcLoop cellMap idx rest (acc ++ [c])
    | none =>
      match s.cell i idx true with
      | (.ok ce, s2) => s2.getRcLoop cellMap idx rest (acc ++ [ce])
      | (.error e, s2) => (.error e, s2)

/-- The row or column attribute selected by the axis of the query. -/
def rcAttrFn (isRow : Bool) : CellElem → Int :=
  fun c => if isRow then c.row else c.col

/-- The attribute of the other axis. -/
def crAttrFn (isRow : Bool) : CellElem → Int :=
  fun c => if isRow then c.col else c.row

/-- Validity of an index on the axis of the query. -/
def Sheet.rcValidFn (s : Sheet) (isRow : Bool) (i : Int) : Bool :=
  if isRow then s.is_valid_row i else s.is_valid_column i

/-- The allowed maximum on the axis of the query. -/
def Sheet.rcMaxFn (s : Sheet) (isRow : Bool) : Int :=
  if isRow then s.max_allowed_row else s.max_allowed_column

/-- The out-of-bounds error on the axis of the query. -/
def Sheet.rcOob (s : Sheet) (isRow : Bool) (i : Int) : SheetError :=
  if isRow then .rowOutOfBounds i (s.rcMaxFn isRow)
  else .colOutOfBounds i (s.rcMaxFn isRow)

/-- The tail of `__get_rc` once the upper bound is settled: the XPath
selection of existing cells in the row or column, their column-major
sort, and the `create_cells` drain (with the `(i, idx)` positional
arguments of the `self.cell` call exactly as in the source). -/
def Sheet.get_rc_body (s : Sheet) (isRow : Bool) (idx min_cr max_cr : Int)
    (create_cells : Bool) : Except SheetError (List CellElem) × Sheet :=
  let existing := s.cells.filter (fun c =>
    rcAttrFn isRow c == idx && min_cr ≤ crAttrFn isRow c &&
    crAttrFn isRow c ≤ max_cr)
  let sorted := Sheet.sort_cells existing false
  if create_cells then
    s.getRcLoop (fun i => sorted.reverse.find? (fun c => crAttrFn isRow c == i))
      idx (intRange min_cr max_cr) []
  else (.ok sorted, s)

/-- `__get_rc`, the common body of `get_row` (`isRow` true) and
`get_column` (`isRow` false): bounds checks in source order, the
defaulting of the missing upper bound, then the settled-bound tail. -/
def Sheet.get_rc (s : Sheet) (isRow : Bool) (idx min_cr : Int)
    (max_cr? : Option Int) (create_cells : Bool) :
    Except SheetError (List CellElem) × Sheet :=
  if ¬ s.rcValidFn isRow idx then (.error (s.rcOob isRow idx), s)
  else if ¬ s.rcValidFn (!isRow) min_cr then
    (.error (s.rcOob (!isRow) min_cr), s)
  else
    match max_cr? with
    | some m =>
      if ¬ s.rcValidFn (!isRow) m then (.error (s.rcOob (!isRow) m), s)
      else s.get_rc_body isRow idx min_cr m create_cells
    | none =>
      match s.maxmin_rc_in_cr (if isRow then "column" else "row")
          (rcAttrFn isRow) (crAttrFn isRow) max idx with
      | .error e => (.error e, s)
      | .ok m0 =>
        s.get_rc_body isRow idx min_cr
          (if m0 == -1 then s.rcMaxFn (!isRow) else m0) create_cells

/-- `get_row`. -/
def Sheet.get_row (s : Sheet) (row min_col : Int) (max_col? : Option Int)
    (create_cells : Bool) : Except SheetError (List CellElem) × Sheet :=
  s.get_rc true row min_col max_col? create_cells

/-- `get_column`. -/
def Sheet.get_column (s : Sheet) (column min_row : Int)
    (max_row? : Option Int) (create_cells : Bool) :
    Except SheetError (List CellElem) × Sheet :=
  s.get_rc false column min_row max_row? create_cells

/-- `delete_cell`: nothing when the cell is absent; the
UnsupportedOperationException raise when the cell originates an
expression; otherwise removal of the found element. -/
def Sheet.delete_cell (s : Sheet) (row col : Int) :
    Except SheetError Unit × Sheet :=
  match s.get_cell_element row col with
  | none => (.ok (), s)
  | some c =>
    if c.exprId != none && c.text != none then
      (.error (.unsupportedOp "delete of an originating expression cell"), s)
    else
      (.ok (), { s with cells := s.cells.erase c })

/-- Grid well-formedness: no two stored cells share an address, and
every stored coordinate lies within the allowed bounds. -/
def Sheet.Wf (s : Sheet) : Prop :=
  (s.cells.map addrOf).Nodup ∧
  ∀ c ∈ s.cells, s.is_valid_row c.row = true ∧ s.is_valid_column c.col = true

/-- A concrete regular 10 by 10 sheet with no cells. -/
def emptySheetW : Sheet := ⟨none, 10, 10, []⟩

/-- A concrete object (chart) sheet. -/
def objSheetW : Sheet := ⟨some "object", 10, 10, []⟩

/-- A concrete sheet with two content cells, stored out of order. -/
def twoCellSheetW : Sheet :=
  ⟨none, 10, 10,
    [⟨1, 0, some 30, none, some "7"⟩, ⟨0, 1, some 30, none, some "8"⟩]⟩

instance (rm : Bool) : IsTotal CellElem (keyLe rm) :=
  ⟨fun a b => by
    unfold keyLe
    cases rm <;> simp <;> omega⟩

instance (rm : Bool) : IsTrans CellElem (keyLe rm) :=
  ⟨fun a b c hab hbc => by
    unfold keyLe at hab hbc ⊢
    cases rm <;> simp_all <;> omega⟩

/-! Stepping lemmas for `evalExpr`, used to drive the proofs one
evaluation step at a time. -/

theorem evalExpr_lit (g : Grid) (fuel : ℕ) (path : List Addr) (v : Value) :
    evalExpr g (fuel + 1) path (.lit v) = some v := rfl

theorem evalExpr_ref_hit (g : Grid) (fuel : ℕ) (path : List Addr) (a : Addr)
    (h : a ∈ path) : evalExpr g (fuel + 1) path (.ref a) = some (.num 0) := by
  simp only [evalExpr]
  rw [if_pos h]

theorem evalExpr_ref_absent (g : Grid) (fuel : ℕ) (path : List Addr) (a : Addr)
    (h : a ∉ path) (hg : g a = none) :
    evalExpr g (fuel + 1) path (.ref a) = some (.num 0) := by
  simp only [evalExpr]
  rw [if_neg h, hg]

theorem evalExpr_ref_val (g : Grid) (fuel : ℕ) (path : List Addr) (a : Addr)
    (v : Value) (h : a ∉ path) (hg : g a = some (.val v)) :
    evalExpr g (fuel + 1) path (.ref a) = some v := by
  simp only [evalExpr]
  rw [if_neg h, hg]

theorem evalExpr_ref_formula (g : Grid) (fuel : ℕ) (path : List Addr) (a : Addr)
    (e2 : Expr) (h : a ∉ path) (hg : g a = some (.formula e2)) :
    evalExpr g (fuel + 1) path (.ref a) = evalExpr g fuel (a :: path) e2 := by
  simp only [evalExpr]
  rw [if_neg h, hg]

theorem evalExpr_binop_left_err (g : Grid) (fuel : ℕ) (path : List Addr)
    (op : BinOp) (l r : Expr) (er : EvalError)
    (hl : evalExpr g fuel path l = some (.err er)) :
    evalExpr g (fuel + 1) path (.binop op l r) = some (.err er) := by
  simp only [evalExpr]
  rw [hl]

theorem evalExpr_binop_right_err (g : Grid) (fuel : ℕ) (path : List Addr)
    (op : BinOp) (l r : Expr) (v : Value) (er : EvalError)
    (hl : evalExpr g fuel path l = some v) (hv : v.isError = false)
    (hr : evalExpr g fuel path r = some (.err er)) :
    evalExpr g (fuel + 1) path (.binop op l r) = some (.err er) := by
  simp only [evalExpr]
  rw [hl]
  cases v with
  | err e => simp [Value.isError] at hv
  | num q => rw [hr]
  | text s => rw [hr]
  | bool b => rw [hr]

theorem evalExpr_binop_vals (g : Grid) (fuel : ℕ) (path : List Addr)
    (op : BinOp) (l r : Expr) (v w : Value)
    (hl : evalExpr g fuel path l = some v) (hv : v.isError = false)
    (hr : evalExpr g fuel path r = some w) (hw : w.isError = false) :
    evalExpr g (fuel + 1) path (.binop op l r) = some (applyBinOp op v w) := by
  simp only [evalExpr]
  rw [hl]
  cases v with
  | err e => simp [Value.isError] at hv
  | num q =>
    rw [hr]
    cases w with
    | err e => simp [Value.isError] at hw
    | num q2 => rfl
    | text s2 => rfl
    | bool b2 => rfl
  | text s =>
    rw [hr]
    cases w with
    | err e => simp [Value.isError] at hw
    | num q2 => rfl
    | text s2 => rfl
    | bool b2 => rfl
  | bool b =>
    rw [hr]
    cases w with
    | err e => simp [Value.isError] at hw
    | num q2 => rfl
    | text s2 => rfl
    | bool b2 => rfl

/-! ## Claims C1 and C2: circular references -/

/-- C1: in every grid where A1 and B1 reference each other, evaluating
either cell terminates for every sufficient fuel with Number 0 — the
occurrence of a cell already on the resolution path short-circuits to
Number 0, with no host-level failure (the result is never the
exhaustion marker). -/
theorem circular_references_evaluate_to_zero (g : Grid) (fuel : ℕ)
    (h : CycleGrid g) :
    evaluateCell g (0, 0) (fuel + 3) = some (.num 0) ∧
    evaluateCell g (0, 1) (fuel + 3) = some (.num 0) := by
  obtain ⟨h1, h2⟩ := h
  constructor
  · simp only [evaluateCell]
    rw [h1]
    show evalExpr g (fuel + 2 + 1) [] (.ref (0, 1)) = some (.num 0)
    rw [evalExpr_ref_formula g (fuel + 2) [] (0, 1) _ (List.not_mem_nil _) h2]
    show evalExpr g (fuel + 1 + 1) [(0, 1)] (.ref (0, 0)) = some (.num 0)
    rw [evalExpr_ref_formula g (fuel + 1) [(0, 1)] (0, 0) _ (by decide) h1]
    exact evalExpr_ref_hit g fuel _ _ (by decide)
  · simp only [evaluateCell]
    rw [h2]
    show evalExpr g (fuel + 2 + 1) [] (.ref (0, 0)) = some (.num 0)
    rw [evalExpr_ref_formula g (fuel + 2) [] (0, 0) _ (List.not_mem_nil _) h1]
    show evalExpr g (fuel + 1 + 1) [(0, 0)] (.ref (0, 1)) = some (.num 0)
    rw [evalExpr_ref_formula g (fuel + 1) [(0, 0)] (0, 1) _ (by decide) h2]
    exact evalExpr_ref_hit g fuel _ _ (by decide)

theorem circular_references_evaluate_to_zero_witness :
    CycleGrid cycleGridW ∧
    evaluateCell cycleGridW (0, 0) 3 = some (.num 0) ∧
    evaluateCell cycleGridW (0, 1) 3 = some (.num 0) := by
  have h : CycleGrid cycleGridW := ⟨rfl, rfl⟩
  exact ⟨h, (circular_references_evaluate_to_zero cycleGridW 0 h).1,
    (circular_references_evaluate_to_zero cycleGridW 0 h).2⟩

/-- C2: in the snapshot-along-cycle-break grid, evaluating B1 returns 5
and evaluating A1 returns 10. -/
theorem snapshot_cycle_break (g : Grid) (fuel : ℕ) (h : SnapshotGrid g) :
    evaluateCell g (0, 1) (fuel + 5) = some (.num 5) ∧
    evaluateCell g (0, 0) (fuel + 5) = some (.num 10) := by
  obtain ⟨h1, h2⟩ := h
  have addFive : ∀ (k : ℕ) (p : List Addr) (q : ℚ),
      evalExpr g (k + 1) p (.ref (0, 1)) = some (.num q) →
      evalExpr g (k + 1 + 1) p
        (.binop (.arith .add) (.ref (0, 1)) (.lit (.num 5))) =
        some (.num (q + 5)) := by
    intro k p q hl
    exact evalExpr_binop_vals g (k + 1) p (.arith .add) _ _ (.num q) (.num 5)
      hl rfl (evalExpr_lit g k p _) rfl
  have q05 : (0 : ℚ) + 5 = 5 := by norm_num
  have q55 : (5 : ℚ) + 5 = 10 := by norm_num
  constructor
  · simp only [evaluateCell]
    rw [h2]
    show evalExpr g (fuel + 4 + 1) [] (.ref (0, 0)) = some (.num 5)
    rw [evalExpr_ref_formula g (fuel + 4) [] (0, 0) _ (List.not_mem_nil _) h1]
    have hl : evalExpr g (fuel + 2 + 1) [(0, 0)] (.ref (0, 1)) = some (.num 0) := by
      rw [evalExpr_ref_formula g (fuel + 2) [(0, 0)] (0, 1) _ (by decide) h2]
      exact evalExpr_ref_hit g (fuel + 1) _ _ (by decide)
    have := addFive (fuel + 2) [(0, 0)] 0 hl
    rw [q05] at this
    exact this
  · simp only [evaluateCell]
    rw [h1]
    have inner : evalExpr g (fuel + 1 + 1) [(0, 0), (0, 1)]
        (.binop (.arith .add) (.ref (0, 1)) (.lit (.num 5))) = some (.num 5) := by
      have := addFive fuel [(0, 0), (0, 1)] 0
        (evalExpr_ref_hit g fuel _ _ (by decide))
      rw [q05] at this
      exact this
    have hl : evalExpr g (fuel + 3 + 1) [] (.ref (0, 1)) = some (.num 5) := by
      rw [evalExpr_ref_formula g (fuel + 3) [] (0, 1) _ (List.not_mem_nil _) h2]
      show evalExpr g (fuel + 2 + 1) [(0, 1)] (.ref (0, 0)) = some (.num 5)
      rw [evalExpr_ref_formula g (fuel + 2) [(0, 1)] (0, 0) _ (by decide) h1]
      exact inner
    show evalExpr g (fuel + 3 + 1 + 1) []
      (.binop (.arith .add) (.ref (0, 1)) (.lit (.num 5))) = some (.num 10)
    have := addFive (fuel + 3) [] 5 hl
    rw [q55] at this
    exact this

theorem snapshot_cycle_break_witness :
    SnapshotGrid snapshotGridW ∧
    evaluateCell snapshotGridW (0, 1) 5 = some (.num 5) ∧
    evaluateCell snapshotGridW (0, 0) 5 = some (.num 10) := by
  have h : SnapshotGrid snapshotGridW := ⟨rfl, rfl⟩
  exact ⟨h, (snapshot_cycle_break snapshotGridW 0 h).1,
    (snapshot_cycle_break snapshotGridW 0 h).2⟩

/-! ## Claim C3: the cross-type comparison order -/

theorem cmpChars_swap : ∀ as bs : List Char, cmpChars bs as = (cmpChars as bs).swap := by
  intro as
  induction as with
  | nil => intro bs; cases bs <;> rfl
  | cons a as ih =>
    intro bs
    cases bs with
    | nil => rfl
    | cons b bs =>
      by_cases hab : a < b
      · have hba : ¬ b < a := asymm hab
        simp only [cmpChars, if_pos hab, if_neg hba]
        rfl
      · by_cases hba : b < a
        · simp only [cmpChars, if_pos hba, if_neg hab]
          rfl
        · simp only [cmpChars, if_neg hab, if_neg hba]
          exact ih bs

theorem cmpChars_lt_trans :
    ∀ as bs cs : List Char, cmpChars as bs = .lt → cmpChars bs cs = .lt →
      cmpChars as cs = .lt := by
  intro as
  induction as with
  | nil =>
    intro bs cs h1 h2
    cases bs with
    | nil => exact Ordering.noConfusion h1
    | cons b bs =>
      cases cs with
      | nil => exact Ordering.noConfusion h2
      | cons c cs => rfl
  | cons a as ih =>
    intro bs cs h1 h2
    cases bs with
    | nil => exact Ordering.noConfusion h1
    | cons b bs =>
      cases cs with
      | nil => exact Ordering.noConfusion h2
      | cons c cs =>
        simp only [cmpChars] at h1 h2 ⊢
        by_cases hab : a < b
        · by_cases hbc : b < c
          · rw [if_pos (lt_trans hab hbc)]
          · rw [if_neg hbc] at h2
            by_cases hcb : c < b
            · rw [if_pos hcb] at h2
              exact Ordering.noConfusion h2
            · have hbceq : b = c := le_antisymm (not_lt.mp hcb) (not_lt.mp hbc)
              rw [if_pos (hbceq ▸ hab)]
        · by_cases hba : b < a
          · rw [if_neg hab, if_pos hba] at h1
            exact Ordering.noConfusion h1
          · have habeq : a = b := le_antisymm (not_lt.mp hba) (not_lt.mp hab)
            subst habeq
            rw [if_neg (lt_irrefl a), if_neg (lt_irrefl a)] at h1
            by_cases hac : a < c
            · rw [if_pos hac]
            · rw [if_neg hac] at h2 ⊢
              by_cases hca : c < a
              · rw [if_pos hca] at h2
                exact Ordering.noConfusion h2
              · rw [if_neg hca] at h2 ⊢
                exact ih bs cs h1 h2

theorem cmpQ_swap (a b : ℚ) : cmpQ b a = (cmpQ a b).swap := by
  unfold cmpQ
  split_ifs <;> first | rfl | linarith

theorem cmpQ_lt_iff (a b : ℚ) : cmpQ a b = .lt ↔ a < b := by
  unfold cmpQ
  split_ifs with h1 h2 <;> simp [h1]

theorem cmpQ_lt_trans (a b c : ℚ) (h1 : cmpQ a b = .lt) (h2 : cmpQ b c = .lt) :
    cmpQ a c = .lt := by
  rw [cmpQ_lt_iff] at h1 h2 ⊢
  exact lt_trans h1 h2

theorem cmpQ_eq_iff (a b : ℚ) : cmpQ a b = .eq ↔ a = b := by
  unfold cmpQ
  split_ifs with h1 h2
  · simp [ne_of_lt h1]
  · simp [ne_of_gt h2]
  · simp [le_antisymm (not_lt.mp h2) (not_lt.mp h1)]

theorem cmpChars_eq_iff : ∀ as bs : List Char, cmpChars as bs = .eq ↔ as = bs := by
  intro as
  induction as with
  | nil =>
    intro bs
    cases bs with
    | nil => simp [cmpChars]
    | cons b bs =>
      exact iff_of_false (fun h => Ordering.noConfusion h)
        (fun h => List.noConfusion h)
  | cons a as ih =>
    intro bs
    cases bs with
    | nil =>
      exact iff_of_false (fun h => Ordering.noConfusion h)
        (fun h => List.noConfusion h)
    | cons b bs =>
      simp only [cmpChars]
      by_cases hab : a < b
      · rw [if_pos hab]
        refine iff_of_false (fun h => Ordering.noConfusion h) ?_
        rintro ⟨rfl, -⟩
        exact absurd hab (lt_irrefl a)
      · rw [if_neg hab]
        by_cases hba : b < a
        · rw [if_pos hba]
          refine iff_of_false (fun h => Ordering.noConfusion h) ?_
          rintro ⟨rfl, -⟩
          exact absurd hba (lt_irrefl a)
        · rw [if_neg hba]
          have habeq : a = b := le_antisymm (not_lt.mp hba) (not_lt.mp hab)
          subst habeq
          simp [ih bs]

/-- Swapping the operands of the comparison order reverses the outcome
(antisymmetry of the order on all values). -/
theorem cmpValue_swap (v w : Value) : cmpValue w v = (cmpValue v w).swap := by
  cases v <;> cases w <;>
    first
      | exact cmpQ_swap _ _
      | exact cmpChars_swap _ _
      | (rename_i b1 b2; cases b1 <;> cases b2 <;> rfl)
      | rfl

/-- Transitivity of the strict part of the comparison order. -/
theorem cmpValue_lt_trans (u v w : Value) (h1 : cmpValue u v = .lt)
    (h2 : cmpValue v w = .lt) : cmpValue u w = .lt := by
  cases u <;> cases v <;> cases w <;>
    first
      | exact cmpQ_lt_trans _ _ _ h1 h2
      | exact cmpChars_lt_trans _ _ _ h1 h2
      | (rename_i b1 b2 b3; revert h1 h2;
          cases b1 <;> cases b2 <;> cases b3 <;> decide)
      | rfl
      | exact Ordering.noConfusion h1
      | exact Ordering.noConfusion h2

/-- C3: for every pair of non-error operand values and every comparison
operator, evaluation decides the comparison through the three-way order
`cmpValue`; that order places every number below every text and every
boolean and every text below every boolean, compares numbers
numerically, text case-insensitively and lexicographically (with
"case" and "CASE" comparing equal), booleans with false below true, and
the operators for equal and not-equal test exact equality under the
order, which is antisymmetric and transitive. -/
theorem comparison_total_order :
    (∀ (g : Grid) (fuel : ℕ) (path : List Addr) (op : CmpOp) (v w : Value),
      v.isError = false → w.isError = false →
      evalExpr g (fuel + 2) path (.binop (.cmp op) (.lit v) (.lit w)) =
        some (.bool (applyCmp op (cmpValue v w)))) ∧
    (∀ (q : ℚ) (s : String), cmpValue (.num q) (.text s) = .lt) ∧
    (∀ (q : ℚ) (b : Bool), cmpValue (.num q) (.bool b) = .lt) ∧
    (∀ (s : String) (b : Bool), cmpValue (.text s) (.bool b) = .lt) ∧
    (∀ q r : ℚ, (cmpValue (.num q) (.num r) = .lt ↔ q < r) ∧
      (cmpValue (.num q) (.num r) = .eq ↔ q = r)) ∧
    (∀ s t : String,
      (cmpValue (.text s) (.text t) = .lt ↔
        cmpChars (foldText s) (foldText t) = .lt) ∧
      (cmpValue (.text s) (.text t) = .eq ↔ foldText s = foldText t)) ∧
    (cmpValue (.text "case") (.text "CASE") = .eq ∧
      applyCmp .lt (cmpValue (.text "case") (.text "CASE")) = false ∧
      applyCmp .le (cmpValue (.text "case") (.text "CASE")) = true) ∧
    (cmpValue (.bool false) (.bool true) = .lt ∧
      (∀ b : Bool, cmpValue (.bool b) (.bool b) = .eq)) ∧
    (∀ v w : Value, (applyCmp .eq (cmpValue v w) = true ↔ cmpValue v w = .eq) ∧
      applyCmp .ne (cmpValue v w) = !applyCmp .eq (cmpValue v w)) ∧
    (∀ v w : Value, cmpValue w v = (cmpValue v w).swap) ∧
    (∀ u v w : Value, cmpValue u v = .lt → cmpValue v w = .lt →
      cmpValue u w = .lt) := by
  refine ⟨?_, ?_, ?_, ?_, ?_, ?_, ?_, ?_, ?_, cmpValue_swap, cmpValue_lt_trans⟩
  · intro g fuel path op v w hv hw
    rw [evalExpr_binop_vals g (fuel + 1) path (.cmp op) _ _ v w
      (evalExpr_lit g fuel path v) hv (evalExpr_lit g fuel path w) hw]
    rfl
  · intro q s
    rfl
  · intro q b
    rfl
  · intro s b
    rfl
  · intro q r
    exact ⟨cmpQ_lt_iff q r, cmpQ_eq_iff q r⟩
  · intro s t
    exact ⟨Iff.rfl, cmpChars_eq_iff _ _⟩
  · refine ⟨?_, ?_, ?_⟩ <;> decide
  · exact ⟨rfl, fun b => by cases b <;> rfl⟩
  · intro v w
    cases cmpValue v w <;> exact ⟨by decide, by decide⟩

theorem comparison_total_order_witness :
    (Value.num 50).isError = false ∧ (Value.text "2").isError = false ∧
    evalExpr emptyGridW 2 [] (.binop (.cmp .lt) (.lit (.num 50)) (.lit (.text "2"))) =
      some (.bool (applyCmp .lt (cmpValue (.num 50) (.text "2")))) :=
  ⟨rfl, rfl, comparison_total_order.1 emptyGridW 0 [] .lt (.num 50) (.text "2") rfl rfl⟩

/-! ## Claim C4: viral error propagation -/

theorem foldl_argStep_frozen_err (ev : Expr → Option Value) (er : EvalError) :
    ∀ l : List Expr, l.foldl (argStep ev) (some (Except.error er)) =
      some (Except.error er) := by
  intro l
  induction l with
  | nil => rfl
  | cons e es ih => exact ih

/-- C4: any operand or argument that evaluates to an error code makes
the whole expression evaluate to that same error code, operands taken
in declared left-to-right order so that the first offending error wins:
a left operand error wins unconditionally, a right operand error wins
when the left operand is a non-error value, a function argument error
wins when the arguments before it evaluated to non-error values, and
concretely the expression 4+REF*3 and its mirror REF*3+4 both evaluate
to REF. -/
theorem error_propagation :
    (∀ (g : Grid) (fuel : ℕ) (path : List Addr) (op : BinOp) (l r : Expr)
      (er : EvalError), evalExpr g fuel path l = some (.err er) →
      evalExpr g (fuel + 1) path (.binop op l r) = some (.err er)) ∧
    (∀ (g : Grid) (fuel : ℕ) (path : List Addr) (op : BinOp) (l r : Expr)
      (v : Value) (er : EvalError), evalExpr g fuel path l = some v →
      v.isError = false → evalExpr g fuel path r = some (.err er) →
      evalExpr g (fuel + 1) path (.binop op l r) = some (.err er)) ∧
    (∀ (g : Grid) (fuel : ℕ) (path : List Addr) (fname : String)
      (pre : List Expr) (a : Expr) (post : List Expr) (vs : List Value)
      (er : EvalError),
      pre.foldl (argStep (evalExpr g fuel path)) (some (Except.ok [])) =
        some (Except.ok vs) →
      evalExpr g fuel path a = some (.err er) →
      evalExpr g (fuel + 1) path (.call fname (pre ++ a :: post)) =
        some (.err er)) ∧
    (∀ (g : Grid) (fuel : ℕ) (path : List Addr),
      evalExpr g (fuel + 3) path (.binop (.arith .add) (.lit (.num 4))
        (.binop (.arith .mul) (.lit (.err .REF)) (.lit (.num 3)))) =
        some (.err .REF)) ∧
    (∀ (g : Grid) (fuel : ℕ) (path : List Addr),
      evalExpr g (fuel + 3) path (.binop (.arith .add)
        (.binop (.arith .mul) (.lit (.err .REF)) (.lit (.num 3)))
        (.lit (.num 4))) = some (.err .REF)) := by
  refine ⟨?_, ?_, ?_, ?_, ?_⟩
  · intro g fuel path op l r er hl
    exact evalExpr_binop_left_err g fuel path op l r er hl
  · intro g fuel path op l r v er hl hv hr
    exact evalExpr_binop_right_err g fuel path op l r v er hl hv hr
  · intro g fuel path fname pre a post vs er hpre ha
    simp only [evalExpr]
    rw [List.foldl_append, hpre, List.foldl_cons]
    have hstep : argStep (evalExpr g fuel path) (some (Except.ok vs)) a =
        some (Except.error er) := by
      simp only [argStep]
      rw [ha]
    rw [hstep, foldl_argStep_frozen_err]
  · intro g fuel path
    have inner : evalExpr g (fuel + 1 + 1) path
        (.binop (.arith .mul) (.lit (.err .REF)) (.lit (.num 3))) =
        some (.err .REF) :=
      evalExpr_binop_left_err g (fuel + 1) path _ _ _ _
        (evalExpr_lit g fuel path _)
    exact evalExpr_binop_right_err g (fuel + 2) path _ _ _ (.num 4) .REF
      (evalExpr_lit g (fuel + 1) path _) rfl inner
  · intro g fuel path
    have inner : evalExpr g (fuel + 1 + 1) path
        (.binop (.arith .mul) (.lit (.err .REF)) (.lit (.num 3))) =
        some (.err .REF) :=
      evalExpr_binop_left_err g (fuel + 1) path _ _ _ _
        (evalExpr_lit g fuel path _)
    exact evalExpr_binop_left_err g (fuel + 2) path _ _ _ _ inner

theorem error_propagation_witness :
    evalExpr emptyGridW 1 [] (.lit (.err .DIV0)) = some (.err .DIV0) ∧
    evalExpr emptyGridW 2 []
      (.binop .concat (.lit (.err .DIV0)) (.lit (.num 1))) =
      some (.err .DIV0) :=
  ⟨rfl, error_propagation.1 emptyGridW 1 [] .concat (.lit (.err .DIV0))
    (.lit (.num 1)) .DIV0 rfl⟩

/-! ## Claims C5 and C6: cell lookup, bounds and creation -/

/-- C5: a row or column outside the allowed range makes `Sheet.cell`
raise the out-of-bounds IndexError regardless of the `create` flag,
with the coordinate never clamped and the sheet left unchanged. -/
theorem cell_out_of_bounds_raises (s : Sheet) (row col : Int) (create : Bool)
    (h : s.is_valid_row row = false ∨ s.is_valid_column col = false) :
    ((s.cell row col create).1 =
        .error (.rowOutOfBounds row s.max_allowed_row) ∨
      (s.cell row col create).1 =
        .error (.colOutOfBounds col s.max_allowed_column)) ∧
    (s.cell row col create).2 = s := by
  by_cases hr : s.is_valid_row row = true
  · have hc : s.is_valid_column col = false := by
      rcases h with h | h
      · rw [hr] at h
        exact Bool.noConfusion h
      · exact h
    refine ⟨Or.inr ?_, ?_⟩ <;> simp [Sheet.cell, hr, hc]
  · refine ⟨Or.inl ?_, ?_⟩ <;> simp [Sheet.cell, hr]

theorem cell_out_of_bounds_raises_witness :
    emptySheetW.is_valid_row (-1) = false ∧
    ((emptySheetW.cell (-1) 0 true).1 =
        .error (.rowOutOfBounds (-1) emptySheetW.max_allowed_row) ∨
      (emptySheetW.cell (-1) 0 true).1 =
        .error (.colOutOfBounds 0 emptySheetW.max_allowed_column)) ∧
    (emptySheetW.cell (-1) 0 true).2 = emptySheetW :=
  ⟨by decide, (cell_out_of_bounds_raises emptySheetW (-1) 0 true (Or.inl (by decide))).1,
    (cell_out_of_bounds_raises emptySheetW (-1) 0 true (Or.inl (by decide))).2⟩

/-- C6: at an in-bounds address with no stored cell, `Sheet.cell` with
`create` false raises the not-found IndexError and leaves the sheet
unchanged, while with `create` true it returns a fresh empty
placeholder at that address, appends exactly that one cell to the
store (the address was absent before the call and stored exactly once
after it), and the placeholder satisfies the empty-cell selector. -/
theorem cell_absent_create_semantics (s : Sheet) (row col : Int)
    (hr : s.is_valid_row row = true) (hc : s.is_valid_column col = true)
    (habs : s.get_cell_element row col = none) :
    (s.cell row col false).1 = .error (.noCellAt row col) ∧
    (s.cell row col false).2 = s ∧
    (s.cell row col true).1 = .ok (newCellElem row col) ∧
    (s.cell row col true).2.cells = s.cells ++ [newCellElem row col] ∧
    (newCellElem row col).isEmptyCell = true ∧
    (s.cells.map addrOf).count (row, col) = 0 ∧
    ((s.cell row col true).2.cells.map addrOf).count (row, col) = 1 := by
  have hnotmem : (row, col) ∉ s.cells.map addrOf := by
    intro hmem
    rcases List.mem_map.mp hmem with ⟨c, hcmem, hceq⟩
    have := List.find?_eq_none.mp habs c hcmem
    apply this
    have h1 : c.row = row := congrArg Prod.fst hceq
    have h2 : c.col = col := congrArg Prod.snd hceq
    simp [h1, h2]
  have hcount0 : (s.cells.map addrOf).count (row, col) = 0 :=
    List.count_eq_zero.mpr hnotmem
  refine ⟨?_, ?_, ?_, ?_, ?_, hcount0, ?_⟩
  · simp [Sheet.cell, hr, hc, habs]
  · simp [Sheet.cell, hr, hc, habs]
  · simp [Sheet.cell, hr, hc, habs, Sheet.create_and_get_new_cell]
  · simp [Sheet.cell, hr, hc, habs, Sheet.create_and_get_new_cell]
  · rfl
  · have hcells : (s.cell row col true).2.cells =
        s.cells ++ [newCellElem row col] := by
      simp [Sheet.cell, hr, hc, habs, Sheet.create_and_get_new_cell]
    rw [hcells, List.map_append, List.count_append, hcount0]
    simp [addrOf, newCellElem]

theorem cell_absent_create_semantics_witness :
    emptySheetW.is_valid_row 2 = true ∧
    emptySheetW.is_valid_column 3 = true ∧
    emptySheetW.get_cell_element 2 3 = none ∧
    (emptySheetW.cell 2 3 false).1 = .error (.noCellAt 2 3) ∧
    (emptySheetW.cell 2 3 true).1 = .ok (newCellElem 2 3) ∧
    (emptySheetW.cell 2 3 true).2.cells = emptySheetW.cells ++ [newCellElem 2 3] := by
  have h := cell_absent_create_semantics emptySheetW 2 3 (by decide) (by decide) rfl
  exact ⟨by decide, by decide, rfl, h.1, h.2.2.1, h.2.2.2.1⟩

/-! ## Claim C8: the bounding rectangle -/

theorem le_foldl_max (l : List Int) (a : Int) : a ≤ l.foldl max a := by
  induction l generalizing a with
  | nil => exact le_refl a
  | cons x xs ih => exact le_trans (le_max_left a x) (ih (max a x))

theorem mem_le_foldl_max (l : List Int) (a : Int) :
    ∀ x ∈ l, x ≤ l.foldl max a := by
  induction l generalizing a with
  | nil => intro x hx; exact absurd hx (List.not_mem_nil x)
  | cons y ys ih =>
    intro x hx
    rcases List.mem_cons.mp hx with rfl | hx
    · exact le_trans (le_max_right a x) (le_foldl_max ys (max a x))
    · exact ih (max a y) x hx

theorem foldl_max_mem (l : List Int) (a : Int) :
    l.foldl max a = a ∨ l.foldl max a ∈ l := by
  induction l generalizing a with
  | nil => exact Or.inl rfl
  | cons x xs ih =>
    rcases ih (max a x) with h | h
    · rcases max_choice a x with hm | hm
      · exact Or.inl (by rw [List.foldl_cons, h, hm])
      · exact Or.inr (by rw [List.foldl_cons, h, hm]; exact List.mem_cons_self x xs)
    · exact Or.inr (List.mem_cons_of_mem x h)

theorem foldl_min_le (l : List Int) (a : Int) : l.foldl min a ≤ a := by
  induction l generalizing a with
  | nil => exact le_refl a
  | cons x xs ih => exact le_trans (ih (min a x)) (min_le_left a x)

theorem mem_foldl_min_le (l : List Int) (a : Int) :
    ∀ x ∈ l, l.foldl min a ≤ x := by
  induction l generalizing a with
  | nil => intro x hx; exact absurd hx (List.not_mem_nil x)
  | cons y ys ih =>
    intro x hx
    rcases List.mem_cons.mp hx with rfl | hx
    · exact le_trans (foldl_min_le ys (min a x)) (min_le_right a x)
    · exact ih (min a y) x hx

theorem foldl_min_mem (l : List Int) (a : Int) :
    l.foldl min a = a ∨ l.foldl min a ∈ l := by
  induction l generalizing a with
  | nil => exact Or.inl rfl
  | cons x xs ih =>
    rcases ih (min a x) with h | h
    · rcases min_choice a x with hm | hm
      · exact Or.inl (by rw [List.foldl_cons, h, hm])
      · exact Or.inr (by rw [List.foldl_cons, h, hm]; exact List.mem_cons_self x xs)
    · exact Or.inr (List.mem_cons_of_mem x h)

theorem foldExtreme_max_ge (l : List Int) : ∀ x ∈ l, x ≤ foldExtreme max l := by
  intro x hx
  cases l with
  | nil => exact absurd hx (List.not_mem_nil x)
  | cons y ys =>
    rcases List.mem_cons.mp hx with rfl | hx
    · exact le_foldl_max ys x
    · exact mem_le_foldl_max ys y x hx

theorem foldExtreme_min_le (l : List Int) : ∀ x ∈ l, foldExtreme min l ≤ x := by
  intro x hx
  cases l with
  | nil => exact absurd hx (List.not_mem_nil x)
  | cons y ys =>
    rcases List.mem_cons.mp hx with rfl | hx
    · exact foldl_min_le ys x
    · exact mem_foldl_min_le ys y x hx

theorem foldExtreme_max_mem (l : List Int) (h : l ≠ []) :
    foldExtreme max l ∈ l := by
  cases l with
  | nil => exact absurd rfl h
  | cons y ys =>
    rcases foldl_max_mem ys y with h2 | h2
    · rw [foldExtreme, h2]
      exact List.mem_cons_self y ys
    · exact List.mem_cons_of_mem y h2

theorem foldExtreme_min_mem (l : List Int) (h : l ≠ []) :
    foldExtreme min l ∈ l := by
  cases l with
  | nil => exact absurd rfl h
  | cons y ys =>
    rcases foldl_min_mem ys y with h2 | h2
    · rw [foldExtreme, h2]
      exact List.mem_cons_self y ys
    · exact List.mem_cons_of_mem y h2

/-- C8: on a regular sheet `calculate_dimension` returns the four
extremes computed only from the non-empty cells, each the sentinel -1
when there are none, the extremes bounding every non-empty cell and
each attained by one; on an object sheet `calculate_dimension` and the
max and min row and column queries all raise
UnsupportedOperationException. -/
theorem calculate_dimension_spec (s : Sheet) :
    (s.sheetType = some SHEET_TYPE_OBJECT →
      s.calculate_dimension =
        .error (.unsupportedOp "Chartsheet does not have rows or columns") ∧
      s.max_row = .error (.unsupportedOp "Chartsheet does not have row") ∧
      s.min_row = .error (.unsupportedOp "Chartsheet does not have row") ∧
      s.max_column = .error (.unsupportedOp "Chartsheet does not have column") ∧
      s.min_column = .error (.unsupportedOp "Chartsheet does not have column")) ∧
    (s.sheetType ≠ some SHEET_TYPE_OBJECT →
      ∃ mr mc xr xc, s.calculate_dimension = .ok (mr, mc, xr, xc) ∧
        (s.content_cells = [] → (mr, mc, xr, xc) = (-1, -1, -1, -1)) ∧
        (∀ c ∈ s.content_cells,
          mr ≤ c.row ∧ c.row ≤ xr ∧ mc ≤ c.col ∧ c.col ≤ xc) ∧
        (s.content_cells ≠ [] →
          (∃ c ∈ s.content_cells, c.row = mr) ∧
          (∃ c ∈ s.content_cells, c.row = xr) ∧
          (∃ c ∈ s.content_cells, c.col = mc) ∧
          (∃ c ∈ s.content_cells, c.col = xc))) := by
  constructor
  · intro hobj
    refine ⟨?_, ?_, ?_, ?_, ?_⟩ <;>
      simp [Sheet.calculate_dimension, Sheet.max_row, Sheet.min_row,
        Sheet.max_column, Sheet.min_column, Sheet.maxmin_rc, hobj]
  · intro hobj
    have hcond : (s.sheetType == some SHEET_TYPE_OBJECT) = false := by
      simp [hobj]
    by_cases hne : s.content_cells = []
    · refine ⟨-1, -1, -1, -1, ?_, fun _ => rfl, ?_, fun h => absurd hne h⟩
      · simp [Sheet.calculate_dimension, Sheet.max_row, Sheet.min_row,
          Sheet.max_column, Sheet.min_column, Sheet.maxmin_rc, hcond, hne]
      · intro c hcmem
        rw [hne] at hcmem
        exact absurd hcmem (List.not_mem_nil c)
    · have hlen : (s.content_cells.length == 0) = false := by
        simp [List.length_eq_zero, hne]
      have hmr : s.min_row =
          .ok (foldExtreme min (s.content_cells.map (fun c => c.row))) := by
        simp [Sheet.min_row, Sheet.maxmin_rc, hcond, hlen]
      have hmc : s.min_column =
          .ok (foldExtreme min (s.content_cells.map (fun c => c.col))) := by
        simp [Sheet.min_column, Sheet.maxmin_rc, hcond, hlen]
      have hxr : s.max_row =
          .ok (foldExtreme max (s.content_cells.map (fun c => c.row))) := by
        simp [Sheet.max_row, Sheet.maxmin_rc, hcond, hlen]
      have hxc : s.max_column =
          .ok (foldExtreme max (s.content_cells.map (fun c => c.col))) := by
        simp [Sheet.max_column, Sheet.maxmin_rc, hcond, hlen]
      have hmapne : ∀ f : CellElem → Int, s.content_cells.map f ≠ [] := by
        intro f h
        exact hne (List.map_eq_nil_iff.mp h)
      refine ⟨foldExtreme min (s.content_cells.map (fun c => c.row)),
        foldExtreme min (s.content_cells.map (fun c => c.col)),
        foldExtreme max (s.content_cells.map (fun c => c.row)),
        foldExtreme max (s.content_cells.map (fun c => c.col)),
        ?_, fun h => absurd h hne, ?_, fun _ => ?_⟩
      · simp [Sheet.calculate_dimension, hcond, hmr, hmc, hxr, hxc]
      · intro c hcmem
        exact ⟨foldExtreme_min_le _ _ (List.mem_map_of_mem _ hcmem),
          foldExtreme_max_ge _ _ (List.mem_map_of_mem _ hcmem),
          foldExtreme_min_le _ _ (List.mem_map_of_mem _ hcmem),
          foldExtreme_max_ge _ _ (List.mem_map_of_mem _ hcmem)⟩
      · refine ⟨?_, ?_, ?_, ?_⟩
        · rcases List.mem_map.mp
            (foldExtreme_min_mem _ (hmapne (fun c => c.row))) with ⟨c, hc, he⟩
          exact ⟨c, hc, he⟩
        · rcases List.mem_map.mp
            (foldExtreme_max_mem _ (hmapne (fun c => c.row))) with ⟨c, hc, he⟩
          exact ⟨c, hc, he⟩
        · rcases List.mem_map.mp
            (foldExtreme_min_mem _ (hmapne (fun c => c.col))) with ⟨c, hc, he⟩
          exact ⟨c, hc, he⟩
        · rcases List.mem_map.mp
            (foldExtreme_max_mem _ (hmapne (fun c => c.col))) with ⟨c, hc, he⟩
          exact ⟨c, hc, he⟩

theorem calculate_dimension_spec_witness :
    objSheetW.calculate_dimension =
      .error (.unsupportedOp "Chartsheet does not have rows or columns") ∧
    objSheetW.max_row = .error (.unsupportedOp "Chartsheet does not have row") ∧
    emptySheetW.calculate_dimension = .ok (-1, -1, -1, -1) := by
  refine ⟨((calculate_dimension_spec objSheetW).1 rfl).1,
    ((calculate_dimension_spec objSheetW).1 rfl).2.1, ?_⟩
  rcases (calculate_dimension_spec emptySheetW).2 (by decide) with
    ⟨mr, mc, xr, xc, hdim, hemp, -, -⟩
  rw [hdim, hemp rfl]

/-! ## Claim C10: the sort argument dispatch of get_cell_collection -/

/-- C10: on any collection call, a `sort` argument equal to the string
"row" returns the collected cells sorted row-major, while every other
truthy sort value (the boolean True, the string "column", any other
non-empty string) returns them sorted column-major; the returned list
is a permutation of the unsorted result and the sheet state is the
same. -/
theorem get_cell_collection_sort_dispatch (s : Sheet)
    (start? end? : Option (Int × Int)) (ie cc : Bool) (sort : SortArg)
    (cs0 : List CellElem) (s0 : Sheet)
    (htruthy : sort.truthy = true)
    (h0 : s.get_cell_collection start? end? ie cc (.ofBool false) =
      (.ok cs0, s0)) :
    ∃ cs, s.get_cell_collection start? end? ie cc sort = (.ok cs, s0) ∧
      cs.Perm cs0 ∧
      (sort = .ofStr "row" → cs.Pairwise (keyLe true)) ∧
      (sort ≠ .ofStr "row" → cs.Pairwise (keyLe false)) := by
  have hU : s.gcc_unsorted start? end? ie cc = (.ok cs0, s0) := by
    unfold Sheet.get_cell_collection at h0
    rcases hA : s.gcc_unsorted start? end? ie cc with ⟨res, s2⟩
    rw [hA] at h0
    cases res with
    | ok cs =>
      simp only [SortArg.truthy, Bool.false_eq_true, if_false] at h0
      rw [Prod.mk.injEq] at h0
      rw [h0.1.symm, h0.2]  -- hmm adjust below
    | error e =>
      rw [Prod.mk.injEq] at h0
      exact absurd h0.1 (fun h => Except.noConfusion h)
  unfold Sheet.get_cell_collection
  rw [hU]
  refine ⟨Sheet.sort_cells cs0 sort.isRowStr, ?_, ?_, ?_, ?_⟩
  · simp only [htruthy, if_true]
  · exact List.perm_insertionSort (keyLe sort.isRowStr) cs0
  · intro hrow
    have : sort.isRowStr = true := by
      rw [hrow]
      simp [SortArg.isRowStr]
    rw [Sheet.sort_cells, this]
    exact List.sorted_insertionSort (keyLe true) cs0
  · intro hnotrow
    have : sort.isRowStr = false := by
      cases sort with
      | ofBool b => rfl
      | ofStr str =>
        simp only [SortArg.isRowStr, beq_eq_false_iff_ne, ne_eq]
        intro he
        exact hnotrow (by rw [he])
    rw [Sheet.sort_cells, this]
    exact List.sorted_insertionSort (keyLe false) cs0

theorem get_cell_collection_sort_dispatch_witness :
    (SortArg.ofBool true).truthy = true ∧
    twoCellSheetW.get_cell_collection none none true false (.ofBool false) =
      (.ok twoCellSheetW.cells, twoCellSheetW) ∧
    ∃ cs, twoCellSheetW.get_cell_collection none none true false (.ofBool true) =
      (.ok cs, twoCellSheetW) ∧
      cs.Perm twoCellSheetW.cells ∧
      (SortArg.ofBool true = .ofStr "row" → cs.Pairwise (keyLe true)) ∧
      (SortArg.ofBool true ≠ .ofStr "row" → cs.Pairwise (keyLe false)) := by
  have h0 : twoCellSheetW.get_cell_collection none none true false (.ofBool false) =
      (.ok twoCellSheetW.cells, twoCellSheetW) := by rfl
  exact ⟨rfl, h0, get_cell_collection_sort_dispatch twoCellSheetW none none
    true false (.ofBool true) twoCellSheetW.cells twoCellSheetW rfl h0⟩

/-! ## Claim C9: grid well-formedness preservation -/

theorem not_mem_addr_of_find_none (s : Sheet) (row col : Int)
    (habs : s.get_cell_element row col = none) :
    (row, col) ∉ s.cells.map addrOf := by
  intro hmem
  rcases List.mem_map.mp hmem with ⟨c, hcmem, hceq⟩
  apply List.find?_eq_none.mp habs c hcmem
  have h1 : c.row = row := congrArg Prod.fst hceq
  have h2 : c.col = col := congrArg Prod.snd hceq
  simp [h1, h2]

theorem cell_found_eq (s : Sheet) (row col : Int) (create : Bool) (c : CellElem)
    (hr : s.is_valid_row row = true) (hc : s.is_valid_column col = true)
    (hf : s.get_cell_element row col = some c) :
    s.cell row col create = (.ok c, s) := by
  simp [Sheet.cell, hr, hc, hf]

theorem cell_created_eq (s : Sheet) (row col : Int)
    (hr : s.is_valid_row row = true) (hc : s.is_valid_column col = true)
    (habs : s.get_cell_element row col = none) :
    s.cell row col true = (.ok (newCellElem row col),
      { s with cells := s.cells ++ [newCellElem row col] }) := by
  simp [Sheet.cell, hr, hc, habs, Sheet.create_and_get_new_cell]

theorem addr_of_found (s : Sheet) (row col : Int) (c : CellElem)
    (hf : s.get_cell_element row col = some c) : addrOf c = (row, col) := by
  have := List.find?_some hf
  rw [Bool.and_eq_true, beq_iff_eq, beq_iff_eq] at this
  simp [addrOf, this.1, this.2]

theorem cell_wf (s : Sheet) (row col : Int) (create : Bool) (h : s.Wf) :
    ((s.cell row col create).2).Wf := by
  by_cases hr : s.is_valid_row row = true
  case neg =>
    have heq : (s.cell row col create).2 = s := by
      simp [Sheet.cell, hr]
    rw [heq]
    exact h
  by_cases hc : s.is_valid_column col = true
  case neg =>
    have heq : (s.cell row col create).2 = s := by
      simp [Sheet.cell, hr, hc]
    rw [heq]
    exact h
  cases hf : s.get_cell_element row col with
  | some c =>
    rw [cell_found_eq s row col create c hr hc hf]
    exact h
  | none =>
    cases create with
    | false =>
      have heq : (s.cell row col false).2 = s := by
        simp [Sheet.cell, hr, hc, hf]
      rw [heq]
      exact h
    | true =>
      rw [cell_created_eq s row col hr hc hf]
      obtain ⟨hnd, hbd⟩ := h
      constructor
      · rw [List.map_append, List.nodup_append]
        refine ⟨hnd, List.nodup_singleton _, ?_⟩
        intro a ha hb
        simp only [List.map_cons, List.map_nil, List.mem_singleton] at hb
        subst hb
        exact not_mem_addr_of_find_none s row col hf ha
      · intro c hcmem
        rcases List.mem_append.mp hcmem with hcm | hcm
        · exact hbd c hcm
        · rw [List.mem_singleton] at hcm
          subst hcm
          exact ⟨hr, hc⟩

theorem createLoop_wf :
    ∀ (addrs : List (Int × Int)) (s : Sheet) (already : List (Int × Int))
      (acc : List CellElem), s.Wf → ((s.createLoop already addrs acc).2).Wf := by
  intro addrs
  induction addrs with
  | nil =>
    intro s already acc h
    exact h
  | cons a rest ih =>
    intro s already acc h
    obtain ⟨r, c⟩ := a
    by_cases hmem : (r, c) ∈ already
    · have : s.createLoop already ((r, c) :: rest) acc =
          s.createLoop already rest acc := by
        simp [Sheet.createLoop, hmem]
      rw [this]
      exact ih s already acc h
    · rcases hcell : s.cell r c true with ⟨res, s2⟩
      have hs2 : s2.Wf := by
        have := cell_wf s r c true h
        rw [hcell] at this
        exact this
      cases res with
      | ok ce =>
        have : s.createLoop already ((r, c) :: rest) acc =
            s2.createLoop already rest (acc ++ [ce]) := by
          simp [Sheet.createLoop, hmem, hcell]
        rw [this]
        exact ih s2 already (acc ++ [ce]) hs2
      | error e =>
        have : s.createLoop already ((r, c) :: rest) acc = (.error e, s2) := by
          simp [Sheet.createLoop, hmem, hcell]
        rw [this]
        exact hs2

theorem getRcLoop_wf :
    ∀ (idxs : List Int) (s : Sheet) (cellMap : Int → Option CellElem)
      (idx : Int) (acc : List CellElem), s.Wf →
      ((s.getRcLoop cellMap idx idxs acc).2).Wf := by
  intro idxs
  induction idxs with
  | nil =>
    intro s cellMap idx acc h
    exact h
  | cons i rest ih =>
    intro s cellMap idx acc h
    cases hmap : cellMap i with
    | some c =>
      have : s.getRcLoop cellMap idx (i :: rest) acc =
          s.getRcLoop cellMap idx rest (acc ++ [c]) := by
        simp [Sheet.getRcLoop, hmap]
      rw [this]
      exact ih s cellMap idx (acc ++ [c]) h
    | none =>
      rcases hcell : s.cell i idx true with ⟨res, s2⟩
      have hs2 : s2.Wf := by
        have := cell_wf s i idx true h
        rw [hcell] at this
        exact this
      cases res with
      | ok ce =>
        have : s.getRcLoop cellMap idx (i :: rest) acc =
            s2.getRcLoop cellMap idx rest (acc ++ [ce]) := by
          simp [Sheet.getRcLoop, hmap, hcell]
        rw [this]
        exact ih s2 cellMap idx (acc ++ [ce]) hs2
      | error e =>
        have : s.getRcLoop cellMap idx (i :: rest) acc = (.error e, s2) := by
          simp [Sheet.getRcLoop, hmap, hcell]
        rw [this]
        exact hs2

theorem gcc_unsorted_wf (s : Sheet) (start? end? : Option (Int × Int))
    (ie cc : Bool) (h : s.Wf) :
    ((s.gcc_unsorted start? end? ie cc).2).Wf := by
  unfold Sheet.gcc_unsorted
  cases cc with
  | true => exact createLoop_wf _ _ _ _ h
  | false => exact h

theorem get_rc_body_wf (s : Sheet) (isRow : Bool) (idx min_cr max_cr : Int)
    (cc : Bool) (h : s.Wf) :
    ((s.get_rc_body isRow idx min_cr max_cr cc).2).Wf := by
  unfold Sheet.get_rc_body
  cases cc with
  | true => exact getRcLoop_wf _ _ _ _ _ h
  | false => exact h

theorem get_rc_wf (s : Sheet) (isRow : Bool) (idx min_cr : Int)
    (max_cr? : Option Int) (cc : Bool) (h : s.Wf) :
    ((s.get_rc isRow idx min_cr max_cr? cc).2).Wf := by
  unfold Sheet.get_rc
  split
  · exact h
  · split
    · exact h
    · cases max_cr? with
      | some m =>
        by_cases hm : s.rcValidFn (!isRow) m = true
        · simp only [hm, not_true_eq_false, if_false, Bool.false_eq_true]
          exact get_rc_body_wf s isRow idx min_cr m cc h
        · simp only [hm, not_false_eq_true, if_true, Bool.false_eq_true]
          exact h
      | none =>
        cases hmm : s.maxmin_rc_in_cr (if isRow then "column" else "row")
            (rcAttrFn isRow) (crAttrFn isRow) max idx with
        | error e =>
          simp only [hmm]
          exact h
        | ok m0 =>
          simp only [hmm]
          exact get_rc_body_wf s isRow idx min_cr _ cc h

/-- C9: every public Sheet operation preserves grid well-formedness —
no two stored cells at one address, every stored coordinate within the
allowed bounds — whether it succeeds or raises. -/
theorem sheet_ops_preserve_wf (s : Sheet) (hWf : s.Wf) :
    (∀ (row col : Int) (create : Bool), ((s.cell row col create).2).Wf) ∧
    (∀ (start? end? : Option (Int × Int)) (ie cc : Bool) (sort : SortArg),
      ((s.get_cell_collection start? end? ie cc sort).2).Wf) ∧
    (∀ (row min_col : Int) (max_col? : Option Int) (cc : Bool),
      ((s.get_row row min_col max_col? cc).2).Wf) ∧
    (∀ (column min_row : Int) (max_row? : Option Int) (cc : Bool),
      ((s.get_column column min_row max_row? cc).2).Wf) ∧
    (∀ row col : Int, ((s.delete_cell row col).2).Wf) := by
  refine ⟨fun row col create => cell_wf s row col create hWf,
    fun start? end? ie cc sort => ?_,
    fun row min_col max_col? cc => get_rc_wf s true row min_col max_col? cc hWf,
    fun column min_row max_row? cc =>
      get_rc_wf s false column min_row max_row? cc hWf,
    fun row col => ?_⟩
  · unfold Sheet.get_cell_collection
    rcases hA : s.gcc_unsorted start? end? ie cc with ⟨res, s2⟩
    have hs2 : s2.Wf := by
      have := gcc_unsorted_wf s start? end? ie cc hWf
      rw [hA] at this
      exact this
    cases res with
    | ok cs =>
      cases hb : sort.truthy <;> simp only [hb, if_true, if_false] <;> exact hs2
    | error e => exact hs2
  · cases hf : s.get_cell_element row col with
    | none =>
      have heq : (s.delete_cell row col).2 = s := by
        simp [Sheet.delete_cell, hf]
      rw [heq]
      exact hWf
    | some c =>
      by_cases hexp : (c.exprId != none && c.text != none) = true
      · have heq : (s.delete_cell row col).2 = s := by
          simp [Sheet.delete_cell, hf, hexp]
        rw [heq]
        exact hWf
      · have heq : (s.delete_cell row col).2 =
            { s with cells := s.cells.erase c } := by
          simp [Sheet.delete_cell, hf, hexp]
        rw [heq]
        obtain ⟨hnd, hbd⟩ := hWf
        have hsub : List.Sublist (s.cells.erase c) s.cells :=
          List.erase_sublist c s.cells
        exact ⟨hnd.sublist (hsub.map addrOf),
          fun x hx => hbd x (hsub.subset hx)⟩

theorem sheet_ops_preserve_wf_witness :
    twoCellSheetW.Wf ∧ ((twoCellSheetW.cell 0 0 true).2).Wf := by
  have h : twoCellSheetW.Wf := by
    constructor
    · decide
    · decide
  exact ⟨h, (sheet_ops_preserve_wf twoCellSheetW h).1 0 0 true⟩

/-! ## Claim C7: range materialization -/

theorem mem_intRange (a b x : Int) : x ∈ intRange a b ↔ a ≤ x ∧ x ≤ b := by
  unfold intRange
  rw [List.mem_map]
  constructor
  · rintro ⟨i, hi, rfl⟩
    rw [List.mem_range] at hi
    omega
  · rintro ⟨h1, h2⟩
    refine ⟨(x - a).toNat, ?_, by omega⟩
    rw [List.mem_range]
    omega

theorem intRange_nodup (a b : Int) : (intRange a b).Nodup := by
  unfold intRange
  exact (List.nodup_range _).map (fun i j h => by omega)

theorem mem_rectAddrs (sr er sc ec : Int) (p : Int × Int) :
    p ∈ rectAddrs sr er sc ec ↔
      sr ≤ p.1 ∧ p.1 ≤ er ∧ sc ≤ p.2 ∧ p.2 ≤ ec := by
  unfold rectAddrs
  rw [List.mem_flatMap]
  constructor
  · rintro ⟨r, hr, hp⟩
    rw [List.mem_map] at hp
    rcases hp with ⟨c, hc, rfl⟩
    rw [mem_intRange] at hr hc
    exact ⟨hr.1, hr.2, hc.1, hc.2⟩
  · rintro ⟨h1, h2, h3, h4⟩
    refine ⟨p.1, ?_, ?_⟩
    · rw [mem_intRange]
      exact ⟨h1, h2⟩
    · rw [List.mem_map]
      exact ⟨p.2, by rw [mem_intRange]; exact ⟨h3, h4⟩, rfl⟩

theorem rectAddrs_nodup (sr er sc ec : Int) : (rectAddrs sr er sc ec).Nodup := by
  unfold rectAddrs
  have hcols := intRange_nodup sc ec
  generalize intRange sc ec = cols at hcols
  have hrows := intRange_nodup sr er
  generalize intRange sr er = rows at hrows
  induction rows with
  | nil => exact List.nodup_nil
  | cons r rs ih =>
    rw [List.flatMap_cons, List.nodup_append]
    obtain ⟨hr, hrs⟩ := List.nodup_cons.mp hrows
    refine ⟨hcols.map (fun c1 c2 h => by
      exact (Prod.mk.injEq _ _ _ _).mp h |>.2), ih hrs, ?_⟩
    intro p hp1 hp2
    rw [List.mem_map] at hp1
    rcases hp1 with ⟨c, -, rfl⟩
    rw [List.mem_flatMap] at hp2
    rcases hp2 with ⟨r2, hr2, hp2⟩
    rw [List.mem_map] at hp2
    rcases hp2 with ⟨c2, -, heq⟩
    have : r2 = r := (Prod.mk.injEq _ _ _ _).mp heq |>.1
    subst this
    exact hr hr2

theorem valid_row_between (s : Sheet) (sr er r : Int)
    (hsr : s.is_valid_row sr = true) (her : s.is_valid_row er = true)
    (h1 : sr ≤ r) (h2 : r ≤ er) : s.is_valid_row r = true := by
  unfold Sheet.is_valid_row at hsr her ⊢
  rw [Bool.and_eq_true, decide_eq_true_iff, decide_eq_true_iff] at hsr her ⊢
  omega

theorem valid_column_between (s : Sheet) (sc ec c : Int)
    (hsc : s.is_valid_column sc = true) (hec : s.is_valid_column ec = true)
    (h1 : sc ≤ c) (h2 : c ≤ ec) : s.is_valid_column c = true := by
  unfold Sheet.is_valid_column at hsc hec ⊢
  rw [Bool.and_eq_true, decide_eq_true_iff, decide_eq_true_iff] at hsc hec ⊢
  omega

/-- The invariant of the `create_cells` loop: under validity of every
visited address and storedness of every already-collected address, the
loop succeeds, preserves the static sheet fields, only appends to the
store, extends the accumulator by exactly one cell per visited address
not already collected (in visit order), and leaves every visited
address stored. -/
theorem createLoop_spec :
    ∀ (addrs : List (Int × Int)) (s : Sheet) (already : List (Int × Int))
      (acc : List CellElem),
      (∀ a ∈ addrs, s.is_valid_row a.1 = true ∧ s.is_valid_column a.2 = true) →
      (∀ a ∈ already, a ∈ s.cells.map addrOf) →
      ∃ cs s2, s.createLoop already addrs acc = (.ok cs, s2) ∧
        s2.sheetType = s.sheetType ∧ s2.rowsAttr = s.rowsAttr ∧
        s2.colsAttr = s.colsAttr ∧
        s.cells <+: s2.cells ∧
        cs.map addrOf =
          acc.map addrOf ++ addrs.filter (fun a => decide (a ∉ already)) ∧
        (∀ a ∈ addrs, a ∈ s2.cells.map addrOf) := by
  intro addrs
  induction addrs with
  | nil =>
    intro s already acc hv hal
    exact ⟨acc, s, rfl, rfl, rfl, rfl, List.prefix_rfl,
      by simp, fun a ha => absurd ha (List.not_mem_nil a)⟩
  | cons p rest ih =>
    intro s already acc hv hal
    obtain ⟨r, c⟩ := p
    have hvhead := hv (r, c) (List.mem_cons_self _ _)
    by_cases hmem : (r, c) ∈ already
    · have hstep : s.createLoop already ((r, c) :: rest) acc =
          s.createLoop already rest acc := by
        simp [Sheet.createLoop, hmem]
      rcases ih s already acc (fun a ha => hv a (List.mem_cons_of_mem _ ha))
        hal with ⟨cs, s2, heq, hty, hra, hca, hpre, hmap, hall⟩
      refine ⟨cs, s2, hstep ▸ heq, hty, hra, hca, hpre, ?_, ?_⟩
      · rw [hmap, List.filter_cons, if_neg (by simp [hmem])]
      · intro a ha
        rcases List.mem_cons.mp ha with rfl | ha
        · exact ((hpre.map addrOf).subset) (hal _ hmem)
        · exact hall a ha
    · cases hf : s.get_cell_element r c with
      | some ce =>
        have hstep : s.createLoop already ((r, c) :: rest) acc =
            s.createLoop already rest (acc ++ [ce]) := by
          simp [Sheet.createLoop, hmem,
            cell_found_eq s r c true ce hvhead.1 hvhead.2 hf]
        rcases ih s already (acc ++ [ce])
          (fun a ha => hv a (List.mem_cons_of_mem _ ha)) hal with
          ⟨cs, s2, heq, hty, hra, hca, hpre, hmap, hall⟩
        have haddr : addrOf ce = (r, c) := addr_of_found s r c ce hf
        have hcemem : (r, c) ∈ s.cells.map addrOf := by
          rw [← haddr]
          exact List.mem_map_of_mem addrOf (List.mem_of_find?_eq_some hf)
        refine ⟨cs, s2, hstep ▸ heq, hty, hra, hca, hpre, ?_, ?_⟩
        · rw [hmap, List.filter_cons, if_pos (by simp [hmem]),
            List.map_append]
          simp [haddr]
        · intro a ha
          rcases List.mem_cons.mp ha with rfl | ha
          · exact ((hpre.map addrOf).subset) hcemem
          · exact hall a ha
      | none =>
        have hstep : s.createLoop already ((r, c) :: rest) acc =
            ({ s with cells := s.cells ++ [newCellElem r c] } : Sheet).createLoop
              already rest (acc ++ [newCellElem r c]) := by
          simp [Sheet.createLoop, hmem,
            cell_created_eq s r c hvhead.1 hvhead.2 hf]
        rcases ih { s with cells := s.cells ++ [newCellElem r c] } already
          (acc ++ [newCellElem r c])
          (fun a ha => hv a (List.mem_cons_of_mem _ ha))
          (fun a ha => by
            rw [List.map_append]
            exact List.mem_append_left _ (hal a ha)) with
          ⟨cs, s2, heq, hty, hra, hca, hpre, hmap, hall⟩
        have hnewmem : (r, c) ∈
            (s.cells ++ [newCellElem r c]).map addrOf := by
          rw [List.map_append]
          exact List.mem_append_right _ (by simp [addrOf, newCellElem])
        refine ⟨cs, s2, hstep ▸ heq, hty, hra, hca,
          (List.prefix_append s.cells [newCellElem r c]).trans hpre, ?_, ?_⟩
        · rw [hmap, List.filter_cons, if_pos (by simp [hmem]),
            List.map_append]
          simp [addrOf, newCellElem]
        · intro a ha
          rcases List.mem_cons.mp ha with rfl | ha
          · exact ((hpre.map addrOf).subset) hnewmem
          · exact hall a ha

theorem count_le_one_of_nodup {α : Type} [BEq α] [LawfulBEq α]
    {l : List α} (h : l.Nodup) (a : α) : l.count a ≤ 1 := by
  induction l with
  | nil => simp
  | cons x xs ih =>
    rw [List.count_cons]
    obtain ⟨hx, hxs⟩ := List.nodup_cons.mp h
    by_cases hax : (x == a) = true
    · have hxa : x = a := eq_of_beq hax
      subst hxa
      rw [List.count_eq_zero.mpr hx]
      simp
    · rw [Bool.not_eq_true] at hax
      rw [hax]
      simpa using ih hxs

/-- C7: on a well-formed sheet, `get_cell_collection` over an in-bounds
rectangle with `create_cells` set returns exactly one cell per address
of the inclusive rectangle — none missing, none repeated, none outside
it — and afterwards every address of the rectangle is stored. -/
theorem get_cell_collection_materializes (s : Sheet) (sr sc er ec : Int)
    (hWf : s.Wf)
    (hsr : s.is_valid_row sr = true) (her : s.is_valid_row er = true)
    (hsc : s.is_valid_column sc = true) (hec : s.is_valid_column ec = true) :
    ∃ cs s2,
      s.get_cell_collection (some (sr, sc)) (some (er, ec)) false true
        (.ofBool false) = (.ok cs, s2) ∧
      (∀ r c : Int, sr ≤ r → r ≤ er → sc ≤ c → c ≤ ec →
        (cs.map addrOf).count (r, c) = 1 ∧ (r, c) ∈ s2.cells.map addrOf) ∧
      (∀ ce ∈ cs, sr ≤ ce.row ∧ ce.row ≤ er ∧ sc ≤ ce.col ∧ ce.col ≤ ec) := by
  have hv : ∀ a ∈ rectAddrs sr er sc ec,
      s.is_valid_row a.1 = true ∧ s.is_valid_column a.2 = true := by
    intro a ha
    rw [mem_rectAddrs] at ha
    exact ⟨valid_row_between s sr er a.1 hsr her ha.1 ha.2.1,
      valid_column_between s sc ec a.2 hsc hec ha.2.2.1 ha.2.2.2⟩
  have hsub0 : List.Sublist
      (s.content_cells.filter (fun ce =>
        sc ≤ ce.col && ce.col ≤ ec && sr ≤ ce.row && ce.row ≤ er))
      s.cells :=
    (List.filter_sublist _).trans (List.filter_sublist s.cells)
  have hal : ∀ a ∈ (s.content_cells.filter (fun ce =>
      sc ≤ ce.col && ce.col ≤ ec && sr ≤ ce.row && ce.row ≤ er)).map addrOf,
      a ∈ s.cells.map addrOf := by
    intro a ha
    rcases List.mem_map.mp ha with ⟨ce, hce, rfl⟩
    exact List.mem_map_of_mem addrOf (hsub0.subset hce)
  rcases createLoop_spec (rectAddrs sr er sc ec) s
    ((s.content_cells.filter (fun ce =>
      sc ≤ ce.col && ce.col ≤ ec && sr ≤ ce.row && ce.row ≤ er)).map addrOf)
    (s.content_cells.filter (fun ce =>
      sc ≤ ce.col && ce.col ≤ ec && sr ≤ ce.row && ce.row ≤ er))
    hv hal with ⟨cs, s2, heq, -, -, -, hpre, hmap, hall⟩
  have hnodupal : ((s.content_cells.filter (fun ce =>
      sc ≤ ce.col && ce.col ≤ ec && sr ≤ ce.row && ce.row ≤ er)).map
        addrOf).Nodup :=
    hWf.1.sublist (hsub0.map addrOf)
  refine ⟨cs, s2, ?_, ?_, ?_⟩
  · unfold Sheet.get_cell_collection
    have hgcc : s.gcc_unsorted (some (sr, sc)) (some (er, ec)) false true =
        s.createLoop
          ((s.content_cells.filter (fun ce =>
            sc ≤ ce.col && ce.col ≤ ec && sr ≤ ce.row && ce.row ≤ er)).map
              addrOf)
          (rectAddrs sr er sc ec)
          (s.content_cells.filter (fun ce =>
            sc ≤ ce.col && ce.col ≤ ec && sr ≤ ce.row && ce.row ≤ er)) := rfl
    rw [hgcc, heq]
    rfl
  · intro r c h1 h2 h3 h4
    have hmemrect : (r, c) ∈ rectAddrs sr er sc ec :=
      (mem_rectAddrs sr er sc ec (r, c)).mpr ⟨h1, h2, h3, h4⟩
    refine ⟨?_, hall (r, c) hmemrect⟩
    rw [hmap, List.count_append]
    by_cases hmem : (r, c) ∈ (s.content_cells.filter (fun ce =>
        sc ≤ ce.col && ce.col ≤ ec && sr ≤ ce.row && ce.row ≤ er)).map addrOf
    · have c1 : ((s.content_cells.filter (fun ce =>
          sc ≤ ce.col && ce.col ≤ ec && sr ≤ ce.row && ce.row ≤ er)).map
            addrOf).count (r, c) = 1 := by
        have hle := count_le_one_of_nodup hnodupal (r, c)
        have hpos := List.count_pos_iff.mpr hmem
        omega
      have c2 : ((rectAddrs sr er sc ec).filter
          (fun a => decide (a ∉ (s.content_cells.filter (fun ce =>
            sc ≤ ce.col && ce.col ≤ ec && sr ≤ ce.row && ce.row ≤ er)).map
              addrOf))).count (r, c) = 0 := by
        rw [List.count_eq_zero]
        intro hx
        rw [List.mem_filter] at hx
        exact (of_decide_eq_true hx.2) hmem
      rw [c1, c2]
    · have c1 : ((s.content_cells.filter (fun ce =>
          sc ≤ ce.col && ce.col ≤ ec && sr ≤ ce.row && ce.row ≤ er)).map
            addrOf).count (r, c) = 0 := List.count_eq_zero.mpr hmem
      have c2 : ((rectAddrs sr er sc ec).filter
          (fun a => decide (a ∉ (s.content_cells.filter (fun ce =>
            sc ≤ ce.col && ce.col ≤ ec && sr ≤ ce.row && ce.row ≤ er)).map
              addrOf))).count (r, c) = 1 := by
        have hnd : ((rectAddrs sr er sc ec).filter
            (fun a => decide (a ∉ (s.content_cells.filter (fun ce =>
              sc ≤ ce.col && ce.col ≤ ec && sr ≤ ce.row && ce.row ≤ er)).map
                addrOf))).Nodup :=
          (rectAddrs_nodup sr er sc ec).sublist (List.filter_sublist _)
        have hmemf : (r, c) ∈ (rectAddrs sr er sc ec).filter
            (fun a => decide (a ∉ (s.content_cells.filter (fun ce =>
              sc ≤ ce.col && ce.col ≤ ec && sr ≤ ce.row && ce.row ≤ er)).map
                addrOf)) :=
          List.mem_filter.mpr ⟨hmemrect, decide_eq_true hmem⟩
        have hle := count_le_one_of_nodup hnd (r, c)
        have hpos := List.count_pos_iff.mpr hmemf
        omega
      rw [c1, c2]
  · intro ce hce
    have hmem : addrOf ce ∈ cs.map addrOf := List.mem_map_of_mem addrOf hce
    rw [hmap] at hmem
    rcases List.mem_append.mp hmem with hin | hin
    · rcases List.mem_map.mp hin with ⟨x, hx, heqx⟩
      have hpredx := (List.mem_filter.mp hx).2
      simp only [Bool.and_eq_true, decide_eq_true_iff] at hpredx
      have hrow : x.row = ce.row := congrArg Prod.fst heqx
      have hcol : x.col = ce.col := congrArg Prod.snd heqx
      rw [hrow, hcol] at hpredx
      obtain ⟨⟨⟨p1, p2⟩, p3⟩, p4⟩ := hpredx
      exact ⟨p3, p4, p1, p2⟩
    · have hr := (List.mem_filter.mp hin).1
      rw [mem_rectAddrs] at hr
      exact hr

theorem get_cell_collection_materializes_witness :
    emptySheetW.Wf ∧ emptySheetW.is_valid_row 0 = true ∧
    emptySheetW.is_valid_row 1 = true ∧
    emptySheetW.is_valid_column 0 = true ∧
    ∃ cs s2,
      emptySheetW.get_cell_collection (some (0, 0)) (some (1, 0)) false true
        (.ofBool false) = (.ok cs, s2) ∧
      (∀ r c : Int, 0 ≤ r → r ≤ 1 → 0 ≤ c → c ≤ 0 →
        (cs.map addrOf).count (r, c) = 1 ∧ (r, c) ∈ s2.cells.map addrOf) ∧
      (∀ ce ∈ cs, 0 ≤ ce.row ∧ ce.row ≤ 1 ∧ 0 ≤ ce.col ∧ ce.col ≤ 0) := by
  have hWf : emptySheetW.Wf := ⟨by decide, by decide⟩
  exact ⟨hWf, by decide, by decide, by decide,
    get_cell_collection_materializes emptySheetW 0 0 1 0 hWf
      (by decide) (by decide) (by decide) (by decide)⟩

end Gnumeric
